import Mathlib

/-!
Shallow embedding of the proxy dispatch fabric of the `flower` repository:
the drop outbound handler, the TLS inbound/outbound handlers (certificate
and key loading, handshake wrapping), the trojan `relay_tcp` engine, and
the QUIC outbound connection pool and inbound accept pipeline.

I/O effects (file reads, PEM parsing, DNS lookups, QUIC/TLS handshakes,
socket polls) are modelled as explicit oracle parameters: each definition
takes the outcome of every external call it makes, and performs on those
outcomes exactly the control flow of the Rust source.
-/

namespace Flower

/-- The `std::io::ErrorKind` values the sources construct (`Other`,
`InvalidInput`, `NotFound`), plus `protocol`, the `Protocol` category of the
specification's `HandlerFailure` taxonomy, which `std::io::ErrorKind` does
not offer and which no code path constructs. -/
inductive ErrorKind
  | other
  | invalidInput
  | notFound
  | protocol
  deriving DecidableEq, Repr

/-- An `std::io::Error`: a kind plus its message. -/
structure IoErr where
  kind : ErrorKind
  msg : String
  deriving DecidableEq, Repr

/-- Outcome of a Rust call that can return `Ok`, return `Err`, or panic
(e.g. via `.unwrap()` or an out-of-bounds `Vec::remove`). -/
inductive RustResult (α : Type)
  | ok (a : α)
  | err (e : IoErr)
  | panicked
  deriving DecidableEq, Repr

/-! ## Session model (src/flower/src/session.rs is outside src/; only the
field read by the embedded handlers is modelled: `destination.host()`). -/

/-- The slice of a `Session` consumed by the embedded handlers. -/
structure Session where
  destinationHost : String
  deriving DecidableEq, Repr

/-- `OutboundConnect` dial-policy hint. -/
inductive OutboundConnect
  | noConnect
  deriving DecidableEq, Repr

/-! ## Drop handler — src/flower/src/proxy/drop/tcp.rs -/

/-- `drop::tcp::Handler::connect_addr`: always `None`. -/
def dropConnectAddr : Option OutboundConnect := none

/-- `drop::tcp::Handler::handle`: ignores session and stream, always
returns `Err(io::Error::new(io::ErrorKind::Other, "dropped"))`.
Streams are opaque (`Nat` tokens). -/
def dropHandle (_sess : Session) (_stream : Option Nat) : Except IoErr Nat :=
  .error ⟨.other, "dropped"⟩

/-! ## TLS outbound handler — src/flower/src/proxy/tls/outbound/tcp.rs
(`rustls-tls` feature), `Handler::handle`. The SNI validity check
(`rustls::ServerName::try_from`) and the handshake (`config.connect`)
are oracles. -/

/-- `tls::outbound::tcp::Handler::connect_addr`: always `None`. -/
def tlsOutConnectAddr : Option OutboundConnect := none

/-- The SNI name chosen by `tls::outbound::tcp::Handler::handle`:
`self.server_name` unless it is empty, else `sess.destination.host()`. -/
def sniName (server_name : String) (sess : Session) : String :=
  if server_name ≠ "" then server_name else sess.destinationHost

/-- `tls::outbound::tcp::Handler::handle`.
`dnsNameValid` is the oracle for `rustls::ServerName::try_from`;
`handshake` is the oracle for `config.connect(domain, stream)`, whose
error detail the source discards through `tls_err`. -/
def tlsOutHandle (server_name : String) (sess : Session) (stream : Option Nat)
    (dnsNameValid : String → Bool) (handshake : Except String Nat) :
    Except IoErr Nat :=
  let name := sniName server_name sess
  match stream with
  | some _ =>
    if dnsNameValid name then
      match handshake with
      | .ok wrapped => .ok wrapped
      | .error _ => .error ⟨.other, "tls error"⟩
    else
      .error ⟨.invalidInput, "invalid dnsname"⟩
  | none => .error ⟨.other, "invalid tls input"⟩

/-! ## TLS inbound certificate and key loading —
src/flower/src/proxy/tls/inbound/tcp.rs (`rustls-tls` feature).

A key or certificate file is modelled by the outcomes of the external calls
made on it: the result of `File::open`/`fs::read`, and the results of the
`rustls_pemfile` parsers (`certs`, `pkcs8_private_keys`,
`rsa_private_keys`), each an `Except` of the list of byte blobs (`List Nat`)
the parser extracts. Note the TLS inbound loaders never inspect the file
extension. -/

/-- Parsed byte blob (one DER blob / one PEM block body). -/
abbrev Blob := List Nat

/-- `tls::inbound::tcp::load_certs`: `File::open(path)?` then
`rustls_pemfile::certs(..).map_err(.. "invalid cert").unwrap()` — so a
file-open failure is returned, but a parse failure panics through the
`.unwrap()`. On success every parsed block becomes one `Certificate`,
in parse order. -/
def load_certs (openRes : Except IoErr Unit) (certsRes : Except Unit (List Blob)) :
    RustResult (List Blob) :=
  match openRes with
  | .error e => .err e
  | .ok _ =>
    match certsRes with
    | .error _ => .panicked
    | .ok bufs => .ok bufs

/-- `tls::inbound::tcp::load_keys`: opens the file twice; the PKCS#8 parse
runs first and the RSA parse second, each mapped to
`InvalidInput("invalid key")` on parse failure, and the two result lists are
appended (PKCS#8 keys first). -/
def load_keys (openRes : Except IoErr Unit)
    (pkcs8Res rsaRes : Except Unit (List Blob)) : Except IoErr (List Blob) :=
  match openRes with
  | .error e => .error e
  | .ok _ =>
    match pkcs8Res with
    | .error _ => .error ⟨.invalidInput, "invalid key"⟩
    | .ok keys =>
      match rsaRes with
      | .error _ => .error ⟨.invalidInput, "invalid key"⟩
      | .ok keys2 => .ok (keys ++ keys2)

/-- The TLS inbound handler state: the certificate chain and private key
installed in its `ServerConfig`. -/
structure TlsInHandler where
  certs : List Blob
  key : Blob
  deriving DecidableEq, Repr

/-- `tls::inbound::tcp::Handler::new` (`rustls-tls` branch):
`load_certs(..)?`, `load_keys(..)?`, then
`with_single_cert(certs, keys.remove(0))` mapped to `InvalidInput` on
rejection. `keys.remove(0)` on an empty `Vec` panics.
`singleCertOk` is the oracle for rustls accepting the cert/key pair. -/
def tlsInHandlerNew (certOpenRes : Except IoErr Unit)
    (certsRes : Except Unit (List Blob))
    (keyOpenRes : Except IoErr Unit)
    (pkcs8Res rsaRes : Except Unit (List Blob))
    (singleCertOk : Bool) : RustResult TlsInHandler :=
  match load_certs certOpenRes certsRes with
  | .panicked => .panicked
  | .err e => .err e
  | .ok certs =>
    match load_keys keyOpenRes pkcs8Res rsaRes with
    | .error e => .err e
    | .ok keys =>
      match keys with
      | [] => .panicked
      | k :: _ =>
        if singleCertOk then .ok ⟨certs, k⟩
        else .err ⟨.invalidInput, "bad certificate/key"⟩

/-- `tls::inbound::tcp::Handler::handle` (`rustls-tls` branch): performs the
server-side TLS handshake (`acceptor.accept(stream)`, given as the oracle
`acceptRes`) and wraps the result; it touches no file. -/
def tlsInHandle (_h : TlsInHandler) (_sess : Session)
    (acceptRes : Except IoErr Nat) : Except IoErr Nat :=
  match acceptRes with
  | .error e => .error e
  | .ok wrapped => .ok wrapped

/-! ## QUIC inbound certificate/key loading and handler —
src/flower/src/proxy/quic/inbound/udp.rs. Unlike the TLS inbound, the QUIC
inbound `Handler::new` only stores the two configured paths; every file
read and parse happens inside `handle`. -/

/-- The QUIC inbound handler state: exactly the two path strings stored by
`quic::inbound::udp::Handler::new`. -/
structure QuicInHandler where
  certificate : String
  certificate_key : String
  deriving DecidableEq, Repr

/-- `quic::inbound::udp::Handler::new`: stores the paths; cannot fail. -/
def quicInHandlerNew (certificate certificate_key : String) : QuicInHandler :=
  ⟨certificate, certificate_key⟩

/-- The non-`der` key branch of `quic::inbound::udp::Handler::handle`
(lines 162–175): `pkcs8_private_keys(..).unwrap()` (panic on parse error),
first key if any; else `rsa_private_keys(..).context(..).unwrap()` (panic on
parse error), first key if any; else `PrivateKey(Vec::new())`
(the source marks this `// FIXME return errors`). -/
def quicInKeyNonDer (pkcs8Res rsaRes : Except Unit (List Blob)) :
    RustResult Blob :=
  match pkcs8Res with
  | .error _ => .panicked
  | .ok pkcs8 =>
    match pkcs8 with
    | x :: _ => .ok x
    | [] =>
      match rsaRes with
      | .error _ => .panicked
      | .ok rsa =>
        match rsa with
        | x :: _ => .ok x
        | [] => .ok []

/-- The certificate-chain part of `quic::inbound::udp::Handler::handle`
(lines 176–186): if the certificate path has extension `der`, the raw file
contents are the single chain entry; otherwise
`rustls_pemfile::certs(..).context(..).unwrap()` (panic on parse error)
yields one entry per parsed block, in order. -/
def quicInCertChain (certIsDer : Bool) (certRaw : Blob)
    (certsRes : Except Unit (List Blob)) : RustResult (List Blob) :=
  if certIsDer then .ok [certRaw]
  else
    match certsRes with
    | .error _ => .panicked
    | .ok bufs => .ok bufs

/-- The key part of `quic::inbound::udp::Handler::handle` (lines 158–175):
`der` extension takes the raw bytes, otherwise the PEM branch
`quicInKeyNonDer`. -/
def quicInKey (keyIsDer : Bool) (keyRaw : Blob)
    (pkcs8Res rsaRes : Except Unit (List Blob)) : RustResult Blob :=
  if keyIsDer then .ok keyRaw
  else quicInKeyNonDer pkcs8Res rsaRes

/-- `quic::inbound::udp::Handler::handle` (lines 150–213). Oracles:
`readCertRes`/`readKeyRes` are the initial
`fs::read(&self.certificate).and_then(|x| Ok((x, fs::read(&self.certificate_key)?)))?`
(either failure is returned as that `io::Error`); the later re-reads of the
same two files `.unwrap()` results that already succeeded. `singleCertOk`
is the `with_single_cert(..).unwrap()` oracle (panic on rejection), and
`endpointRes` the `quinn::Endpoint::new(..)?` / `local_addr()?` outcome.
On success the transport is the `Incoming` producer (opaque `Unit` here;
its polling is modelled separately below). -/
def quicInHandle (_h : QuicInHandler)
    (readCertRes readKeyRes : Except IoErr Blob)
    (keyIsDer certIsDer : Bool)
    (pkcs8Res rsaRes certsRes : Except Unit (List Blob))
    (singleCertOk : Bool)
    (endpointRes : Except IoErr Unit) : RustResult Unit :=
  match readCertRes with
  | .error e => .err e
  | .ok certRaw =>
    match readKeyRes with
    | .error e => .err e
    | .ok keyRaw =>
      match quicInKey keyIsDer keyRaw pkcs8Res rsaRes with
      | .panicked => .panicked
      | .err e => .err e
      | .ok _key =>
        match quicInCertChain certIsDer certRaw certsRes with
        | .panicked => .panicked
        | .err e => .err e
        | .ok _chain =>
          if singleCertOk then
            match endpointRes with
            | .error e => .err e
            | .ok _ => .ok ()
          else .panicked

/-! ## QUIC outbound pool — src/flower/src/proxy/quic/outbound/tcp.rs,
`Manager::new_stream`. A pooled `Connection` is its accounting state
`{ total_accepted, completed }` (the native `quinn::NewConnection` is
opaque). `open_bi` outcomes on pooled slots, and every step of the dial
path, are oracles. -/

/-- The hard-coded per-connection stream cap (the literal `128` at
tcp.rs:105). -/
def STREAM_CAP : Nat := 128

/-- One outbound pool slot: `Connection { new_conn, total_accepted,
completed }` with the native connection abstracted away. -/
structure Connection where
  total_accepted : Nat
  completed : Bool
  deriving DecidableEq, Repr

/-- The pool `connections: Mutex<Vec<Connection>>`, as its contents. -/
abbrev Pool := List Connection

/-- The sweep `self.connections.lock().await.retain(|c| !c.completed)`. -/
def sweep (pool : Pool) : Pool := pool.filter (fun c => !c.completed)

/-- The reuse pass of `new_stream` (tcp.rs:104–125): iterate the slots; on a
slot with `total_accepted < 128` attempt `open_bi` (oracle `ok i` for the
slot at position `i`) — success increments the count and returns at once,
failure marks the slot `completed` and continues; a saturated slot is
marked `completed` and skipped. Returns the updated slots and whether a
stream was obtained. -/
def reusePass (ok : Nat → Bool) : Nat → Pool → Pool × Bool
  | _, [] => ([], false)
  | i, c :: rest =>
    if c.total_accepted < STREAM_CAP then
      if ok i then
        ({ c with total_accepted := c.total_accepted + 1 } :: rest, true)
      else
        let p := reusePass ok (i + 1) rest
        ({ c with completed := true } :: p.1, p.2)
    else
      let p := reusePass ok (i + 1) rest
      ({ c with completed := true } :: p.1, p.2)

/-- Oracles for the dial path of `new_stream` (tcp.rs:127–163):
`quinn::Endpoint::client(..)?`, the DNS lookup, the QUIC handshake
(`endpoint.connect(..)?.await`), and the first `open_bi` on the fresh
connection. -/
structure DialEnv where
  endpointRes : Except IoErr Unit
  dnsRes : Except String (List Nat)
  connectRes : Except String Unit
  openBiRes : Except String Unit

/-- The dial path of `new_stream`: endpoint errors propagate; a DNS error
maps to `Other("lookup .. failed: ..")`; an empty address list fails with
`InvalidInput("could not resolve to any address")`; handshake and `open_bi`
errors map through `quic_err` to `Other` carrying the underlying reason. -/
def dial (env : DialEnv) : Except IoErr Unit :=
  match env.endpointRes with
  | .error e => .error e
  | .ok _ =>
    match env.dnsRes with
    | .error e => .error ⟨.other, "lookup failed: " ++ e⟩
    | .ok ips =>
      if ips.isEmpty then
        .error ⟨.invalidInput, "could not resolve to any address"⟩
      else
        match env.connectRes with
        | .error e => .error ⟨.other, e⟩
        | .ok _ =>
          match env.openBiRes with
          | .error e => .error ⟨.other, e⟩
          | .ok _ => .ok ()

/-- `Manager::new_stream` (tcp.rs:99–172): sweep, reuse pass, and — only
when no pooled slot yielded a stream — the dial path, which on success
pushes a fresh slot `{ total_accepted := 1, completed := false }`. The
returned stream itself is opaque (`Unit`). -/
def new_stream (ok : Nat → Bool) (env : DialEnv) (pool : Pool) :
    Pool × Except IoErr Unit :=
  let r := reusePass ok 0 (sweep pool)
  if r.2 then (r.1, .ok ())
  else
    match dial env with
    | .error e => (r.1, .error e)
    | .ok _ => (r.1 ++ [⟨1, false⟩], .ok ())

/-- Pool states reachable from the empty pool a fresh `Manager` starts
with, under any sequence of `new_stream` calls. -/
inductive Reachable : Pool → Prop
  | init : Reachable []
  | step (ok : Nat → Bool) (env : DialEnv) (pool : Pool) :
      Reachable pool → Reachable (new_stream ok env pool).1

/-- `total_accepted` of the slot at position `j`, when it exists. -/
def countAt (p : Pool) (j : Nat) : Option Nat :=
  (p[j]?).map Connection.total_accepted

/-! ## Relay engine — src/flower/src/proxy/trojan/inbound/mod.rs,
`copy_tcp` and `relay_tcp`. One direction's I/O is a script: the per-round
outcomes of `r.read(&mut buf)` (bytes read, bounded by the buffer),
`w.write(&buf[..len])` and `w.flush()`. A script that runs out stands for
a stream whose next read returns 0 (EOF). The `tokio::select!` racing the
two directions is modelled by the oracle `firstFinishedIsAB` naming which
direction finished first; `relay_tcp` returns the ordered trace of its
observable actions — its Rust return type is `()`, so no error can be
re-raised. -/

/-- The `copy_tcp` buffer size: `[0u8; 0x4000]`, i.e. 16 KiB. -/
def BUF_LEN : Nat := 0x4000

/-- Observable actions of one `copy_tcp` direction. -/
inductive CopyEv
  | readBytes (n : Nat)
  | readFail
  | wroteBytes (n : Nat)
  | writeFail
  | flushed
  | flushFail
  deriving DecidableEq, Repr

/-- The outcomes of the (up to) three awaits of one loop round of
`copy_tcp`. -/
structure IterOutcome where
  readRes : Except IoErr Nat
  writeRes : Except IoErr Nat
  flushRes : Except IoErr Unit

/-- `copy_tcp` (mod.rs:9–23): loop — read into the 16 KiB buffer (`?` on
error), break on 0, write the filled prefix (`?` on error, count ignored),
flush (`?` on error) — returning the event trace and the `io::Result`. -/
def copy_tcp : List IterOutcome → List CopyEv × Except IoErr Unit
  | [] => ([CopyEv.readBytes 0], .ok ())
  | it :: rest =>
    match it.readRes with
    | .error e => ([CopyEv.readFail], .error e)
    | .ok n =>
      let len := min n BUF_LEN
      if len = 0 then ([CopyEv.readBytes 0], .ok ())
      else
        match it.writeRes with
        | .error e => ([CopyEv.readBytes len, CopyEv.writeFail], .error e)
        | .ok _ =>
          match it.flushRes with
          | .error e =>
            ([CopyEv.readBytes len, CopyEv.wroteBytes len, CopyEv.flushFail],
              .error e)
          | .ok _ =>
            (CopyEv.readBytes len :: CopyEv.wroteBytes len ::
              CopyEv.flushed :: (copy_tcp rest).1, (copy_tcp rest).2)

/-- Observable actions of `relay_tcp`. -/
inductive RelayEv
  | copyErrLogged (msg : String)
  | shutdownA
  | shutdownB
  | sessionEndLogged
  deriving DecidableEq, Repr

/-- The oracles of one `relay_tcp` run: the two directions' scripts, which
direction the `select!` saw finish first, and the outcomes of the two
`shutdown` calls (whose results the source discards with `let _ =`). -/
structure RelayEnv where
  scriptAB : List IterOutcome
  scriptBA : List IterOutcome
  firstFinishedIsAB : Bool
  shutdownARes : Except IoErr Unit
  shutdownBRes : Except IoErr Unit

/-- `relay_tcp` (mod.rs:25–42): race the two `copy_tcp` directions, take
the first finisher's result, log (not re-raise) its error if any, rejoin
both streams and shut each down once swallowing failures, then log the
session end. -/
def relay_tcp (env : RelayEnv) : List RelayEv :=
  let winner := if env.firstFinishedIsAB then (copy_tcp env.scriptAB).2
                else (copy_tcp env.scriptBA).2
  (match winner with
   | .error e => [RelayEv.copyErrLogged e.msg]
   | .ok _ => []) ++
  [RelayEv.shutdownA, RelayEv.shutdownB, RelayEv.sessionEndLogged]

/-! ## QUIC inbound accept pipeline — src/flower/src/proxy/quic/inbound/udp.rs,
`Incoming::poll_next` (lines 44–121). Pending handshakes
(`quinn::Connecting`) and active connections (`quinn::NewConnection`) are
opaque `Nat` tokens; a connection token also stands for its remote address.
The oracles give the outcome of every `poll` this wake performs: `inner`
for the underlying incoming queue, `cpoll i` for the handshake of the
pending element at position `i`, `spoll i` for the `bi_streams` queue of
the active connection at position `i`. The source's sequential mutations
are staged as named definitions, applied in source order. -/

/-- Outcome of `Pin::new(&mut self.inner).poll_next(cx)`. -/
inductive InnerPoll
  | readySome (c : Nat)
  | readyNone
  | pending
  deriving DecidableEq, Repr

/-- Outcome of polling one pending `Connecting`. -/
inductive ConnectingPoll
  | okConn (conn : Nat)
  | errConn
  | pending
  deriving DecidableEq, Repr

/-- Outcome of polling one active connection's `bi_streams` queue. -/
inductive BiStreamPoll
  | streamOk (sid : Nat)
  | streamErr
  | exhausted
  | pending
  deriving DecidableEq, Repr

/-- The `Incoming` producer's state. -/
structure IncomingState where
  connectings : List Nat
  new_conns : List Nat
  incoming_closed : Bool
  deriving DecidableEq, Repr

/-- The yielded item: the new `Session`'s `source` (the connection's remote
address token) and `stream_id` (the stream's numeric index). -/
structure StreamItem where
  source : Nat
  stream_id : Nat
  deriving DecidableEq, Repr

/-- `Poll<Option<Item>>`. -/
inductive PollRes
  | readySome (it : StreamItem)
  | readyNone
  | pending
  deriving DecidableEq, Repr

/-- `Vec::swap_remove(i)`: replace the element at `i` by the last element
and pop. -/
def swapRemove (l : List Nat) (i : Nat) : List Nat :=
  match l.getLast? with
  | none => l
  | some last => (l.set i last).dropLast

/-- Step 1 of `poll_next` (lines 47–57): when the queue is not yet closed,
poll it once — a new connection attempt joins `connectings`, `Ready(None)`
marks the queue closed, `Pending` changes nothing. -/
def acceptPhase (inner : InnerPoll) (s : IncomingState) : IncomingState :=
  if s.incoming_closed then s
  else
    match inner with
    | .readySome c => { s with connectings := s.connectings ++ [c] }
    | .readyNone => { s with incoming_closed := true }
    | .pending => s

/-- Step 2 scan (lines 59–73): poll every pending handshake; collect the
completed successes (in order) and the indices of all completed elements
(successes and failures; failures are logged and dropped). -/
def handshakeScan (cpoll : Nat → ConnectingPoll) :
    Nat → List Nat → List Nat × List Nat
  | _, [] => ([], [])
  | i, _c :: rest =>
    let p := handshakeScan cpoll (i + 1) rest
    match cpoll i with
    | .okConn conn => (conn :: p.1, i :: p.2)
    | .errConn => (p.1, i :: p.2)
    | .pending => p

/-- The removal loop `for idx in completed.iter().rev() { v.swap_remove(*idx) }`
(lines 77–79). -/
def removeRevSwap (l : List Nat) (idxs : List Nat) : List Nat :=
  idxs.reverse.foldl swapRemove l

/-- Step 3 scan (lines 81–109): poll each active connection's stream queue
in order; the FIRST stream found is yielded and the scan breaks; stream
errors and exhausted queues mark their connection completed and the scan
continues; `Pending` leaves the connection alone. -/
def streamScan (spoll : Nat → BiStreamPoll) :
    Nat → List Nat → Option StreamItem × List Nat
  | _, [] => (none, [])
  | i, conn :: rest =>
    match spoll i with
    | .streamOk sid => (some ⟨conn, sid⟩, [])
    | .streamErr =>
      let p := streamScan spoll (i + 1) rest
      (p.1, i :: p.2)
    | .exhausted =>
      let p := streamScan spoll (i + 1) rest
      (p.1, i :: p.2)
    | .pending => streamScan spoll (i + 1) rest

/-- The removal loop `for idx in completed.iter().rev() { v.remove(*idx) }`
(lines 110–112), with `Vec::remove`. -/
def removeRevErase (l : List Nat) (idxs : List Nat) : List Nat :=
  idxs.reverse.foldl (fun acc i => acc.eraseIdx i) l

/-- The `connectings` list after steps 1–2. -/
def postConnectings (inner : InnerPoll) (cpoll : Nat → ConnectingPoll)
    (s : IncomingState) : List Nat :=
  removeRevSwap (acceptPhase inner s).connectings
    (handshakeScan cpoll 0 (acceptPhase inner s).connectings).2

/-- The `new_conns` list as step 3 scans it: the surviving connections plus
the handshakes completed this wake (appended, lines 74–76). -/
def pooledConns (inner : InnerPoll) (cpoll : Nat → ConnectingPoll)
    (s : IncomingState) : List Nat :=
  (acceptPhase inner s).new_conns
    ++ (handshakeScan cpoll 0 (acceptPhase inner s).connectings).1

/-- The stream yielded by step 3, if any. -/
def foundStream (inner : InnerPoll) (cpoll : Nat → ConnectingPoll)
    (spoll : Nat → BiStreamPoll) (s : IncomingState) : Option StreamItem :=
  (streamScan spoll 0 (pooledConns inner cpoll s)).1

/-- The `new_conns` list after step 3's removals. -/
def postNewConns (inner : InnerPoll) (cpoll : Nat → ConnectingPoll)
    (spoll : Nat → BiStreamPoll) (s : IncomingState) : List Nat :=
  removeRevErase (pooledConns inner cpoll s)
    (streamScan spoll 0 (pooledConns inner cpoll s)).2

/-- The producer state when `poll_next` returns. -/
def postState (inner : InnerPoll) (cpoll : Nat → ConnectingPoll)
    (spoll : Nat → BiStreamPoll) (s : IncomingState) : IncomingState :=
  ⟨postConnectings inner cpoll s, postNewConns inner cpoll spoll s,
    (acceptPhase inner s).incoming_closed⟩

/-- `Incoming::poll_next` (lines 114–120): yield the found stream if any;
otherwise `Ready(None)` exactly when the queue has closed and both lists
are empty; otherwise `Pending`. -/
def poll_next (inner : InnerPoll) (cpoll : Nat → ConnectingPoll)
    (spoll : Nat → BiStreamPoll) (s : IncomingState) :
    IncomingState × PollRes :=
  match foundStream inner cpoll spoll s with
  | some it => (postState inner cpoll spoll s, .readySome it)
  | none =>
    if (acceptPhase inner s).incoming_closed
        && (postConnectings inner cpoll s).isEmpty
        && (postNewConns inner cpoll spoll s).isEmpty then
      (postState inner cpoll spoll s, .readyNone)
    else (postState inner cpoll spoll s, .pending)

/-- Modelled from the spec (§4.D, for the refinement comparison of C5): the
specified certificate loader — extension `der` wraps the whole file as a
single-entry chain, any other path yields one entry per PEM `CERTIFICATE`
block in file order. -/
def specCertLoader (extIsDer : Bool) (raw : Blob) (pemBlocks : List Blob) :
    List Blob :=
  if extIsDer then [raw] else pemBlocks

end Flower

namespace Flower

/-! # Theorems -/

/-! ## Helper lemmas on the QUIC outbound pool -/

@[simp] lemma countAt_cons_zero (c : Connection) (p : Pool) :
    countAt (c :: p) 0 = some c.total_accepted := by simp [countAt]

@[simp] lemma countAt_cons_succ (c : Connection) (p : Pool) (j : Nat) :
    countAt (c :: p) (j + 1) = countAt p j := by simp [countAt]

@[simp] lemma countAt_nil (j : Nat) : countAt [] j = none := by simp [countAt]

lemma mem_sweep {p : Pool} {c : Connection} :
    c ∈ sweep p ↔ c ∈ p ∧ c.completed = false := by
  simp [sweep, List.mem_filter]

lemma reusePass_length (ok : Nat → Bool) :
    ∀ (i : Nat) (p : Pool), (reusePass ok i p).1.length = p.length := by
  intro i p
  induction p generalizing i with
  | nil => rfl
  | cons c rest ih =>
    by_cases h1 : c.total_accepted < STREAM_CAP
    · by_cases h2 : ok i
      · simp [reusePass, h1, h2]
      · simp [reusePass, h1, h2, ih]
    · simp [reusePass, h1, ih]

lemma reusePass_cap (ok : Nat → Bool) :
    ∀ (i : Nat) (p : Pool), (∀ c ∈ p, c.total_accepted ≤ STREAM_CAP) →
      ∀ c ∈ (reusePass ok i p).1, c.total_accepted ≤ STREAM_CAP := by
  intro i p
  induction p generalizing i with
  | nil => intro _ c hc; simp [reusePass] at hc
  | cons c rest ih =>
    intro hall d hd
    by_cases h1 : c.total_accepted < STREAM_CAP
    · by_cases h2 : ok i
      · simp [reusePass, h1, h2] at hd
        rcases hd with hd | hd
        · subst hd; exact h1
        · exact hall d (List.mem_cons_of_mem _ hd)
      · simp [reusePass, h1, h2] at hd
        rcases hd with hd | hd
        · subst hd; exact hall c (List.mem_cons_self _ _)
        · exact ih (i + 1) (fun x hx => hall x (List.mem_cons_of_mem _ hx)) d hd
    · simp [reusePass, h1] at hd
      rcases hd with hd | hd
      · subst hd; exact hall c (List.mem_cons_self _ _)
      · exact ih (i + 1) (fun x hx => hall x (List.mem_cons_of_mem _ hx)) d hd

lemma reusePass_counts_of_not_found (ok : Nat → Bool) :
    ∀ (i : Nat) (p : Pool), (reusePass ok i p).2 = false →
      ∀ j, countAt (reusePass ok i p).1 j = countAt p j := by
  intro i p
  induction p generalizing i with
  | nil => intro _ j; rfl
  | cons c rest ih =>
    intro hnf j
    by_cases h1 : c.total_accepted < STREAM_CAP
    · by_cases h2 : ok i
      · simp [reusePass, h1, h2] at hnf
      · simp only [reusePass, if_pos h1, if_neg h2] at hnf ⊢
        cases j with
        | zero => simp [countAt]
        | succ j' => simpa using ih (i + 1) hnf j'
    · simp only [reusePass, if_neg h1] at hnf ⊢
      cases j with
      | zero => simp [countAt]
      | succ j' => simpa using ih (i + 1) hnf j'

lemma reusePass_counts_of_found (ok : Nat → Bool) :
    ∀ (i : Nat) (p : Pool), (reusePass ok i p).2 = true →
      ∃ k c, p[k]? = some c ∧ c.total_accepted < STREAM_CAP ∧
        (reusePass ok i p).1[k]? = some ⟨c.total_accepted + 1, c.completed⟩ ∧
        ∀ j, j ≠ k → countAt (reusePass ok i p).1 j = countAt p j := by
  intro i p
  induction p generalizing i with
  | nil => intro h; simp [reusePass] at h
  | cons c rest ih =>
    intro hf
    by_cases h1 : c.total_accepted < STREAM_CAP
    · by_cases h2 : ok i
      · refine ⟨0, c, by simp, h1, ?_, ?_⟩
        · simp [reusePass, h1, h2]
        · intro j hj
          cases j with
          | zero => exact absurd rfl hj
          | succ j' => simp [reusePass, h1, h2]
      · simp only [reusePass, if_pos h1, if_neg h2] at hf ⊢
        obtain ⟨k, d, hget, hlt, hget', hoth⟩ := ih (i + 1) hf
        refine ⟨k + 1, d, by simpa using hget, hlt, by simpa using hget', ?_⟩
        intro j hj
        cases j with
        | zero => simp [countAt]
        | succ j' =>
          have : j' ≠ k := fun h => hj (by simp [h])
          simpa using hoth j' this
    · simp only [reusePass, if_neg h1] at hf ⊢
      obtain ⟨k, d, hget, hlt, hget', hoth⟩ := ih (i + 1) hf
      refine ⟨k + 1, d, by simpa using hget, hlt, by simpa using hget', ?_⟩
      intro j hj
      cases j with
      | zero => simp [countAt]
      | succ j' =>
        have : j' ≠ k := fun h => hj (by simp [h])
        simpa using hoth j' this

lemma new_stream_fst (ok : Nat → Bool) (env : DialEnv) (p : Pool) :
    (new_stream ok env p).1 = (reusePass ok 0 (sweep p)).1 ∨
    (new_stream ok env p).1 = (reusePass ok 0 (sweep p)).1 ++ [⟨1, false⟩] := by
  unfold new_stream
  cases h : (reusePass ok 0 (sweep p)).2
  · cases hd : dial env <;> simp [h, hd]
  · simp [h]

lemma countAt_append_left {p q : Pool} {j : Nat} (h : j < p.length) :
    countAt (p ++ q) j = countAt p j := by
  simp [countAt, List.getElem?_append_left h]

/-- C1: in every pool state reachable from a fresh `Manager` through
`new_stream` calls, every slot satisfies `total_accepted ≤ 128`
(`STREAM_CAP`); across one `new_stream` call the count of the slot at any
position of the swept pool never decreases; a slot marked `completed`
(retired) never survives the sweep, so it is never visited by a reuse pass
again, while every non-retired slot does survive the sweep. -/
theorem quic_pool_cap_monotone_retired :
    (∀ p, Reachable p → ∀ c ∈ p, c.total_accepted ≤ STREAM_CAP) ∧
    (∀ (ok : Nat → Bool) (env : DialEnv) (p : Pool) (j v : Nat),
      countAt (sweep p) j = some v →
      ∃ v', countAt (new_stream ok env p).1 j = some v' ∧ v ≤ v') ∧
    (∀ (p : Pool) (c : Connection), c.completed = true → c ∉ sweep p) ∧
    (∀ (p : Pool) (c : Connection), c ∈ p → c.completed = false →
      c ∈ sweep p) := by
  refine ⟨?_, ?_, ?_, ?_⟩
  · intro p hp
    induction hp with
    | init => intro c hc; simp at hc
    | step ok env pool _ ih =>
      intro c hc
      rcases new_stream_fst ok env pool with h | h <;> rw [h] at hc
      · exact reusePass_cap ok 0 (sweep pool)
          (fun d hd => ih d (mem_sweep.mp hd).1) c hc
      · rcases List.mem_append.mp hc with hc | hc
        · exact reusePass_cap ok 0 (sweep pool)
            (fun d hd => ih d (mem_sweep.mp hd).1) c hc
        · rw [List.mem_singleton.mp hc]; decide
  · intro ok env p j v hv
    have hjlt : j < (sweep p).length := by
      by_contra hge
      push_neg at hge
      rw [countAt, List.getElem?_eq_none hge] at hv
      simp at hv
    cases hfound : (reusePass ok 0 (sweep p)).2 with
    | false =>
      have hc := reusePass_counts_of_not_found ok 0 (sweep p) hfound j
      rcases new_stream_fst ok env p with h | h <;> rw [h]
      · exact ⟨v, by rw [hc, hv], le_refl v⟩
      · have hjr : j < (reusePass ok 0 (sweep p)).1.length := by
          rw [reusePass_length]; exact hjlt
        exact ⟨v, by rw [countAt_append_left hjr, hc, hv], le_refl v⟩
    | true =>
      have hfst : (new_stream ok env p).1 = (reusePass ok 0 (sweep p)).1 := by
        unfold new_stream; simp [hfound]
      obtain ⟨k, c, hget, _, hget', hoth⟩ :=
        reusePass_counts_of_found ok 0 (sweep p) hfound
      by_cases hjk : j = k
      · subst hjk
        have hvc : v = c.total_accepted := by
          rw [countAt, hget] at hv; simp at hv; omega
        refine ⟨c.total_accepted + 1, ?_, by omega⟩
        rw [hfst, countAt, hget']; rfl
      · exact ⟨v, by rw [hfst, hoth j hjk, hv], le_refl v⟩
  · intro p c h hmem
    rw [mem_sweep] at hmem
    rw [h] at hmem
    exact absurd hmem.2 (by simp)
  · intro p c h1 h2
    exact mem_sweep.mpr ⟨h1, h2⟩

/-- C1 (witness): the invariant theorem applied at concrete inputs — the
slot of a pool reached by one dialing `new_stream` call respects the cap;
the slot of count 2 does not decrease across a call; a retired slot is
swept away. -/
theorem quic_pool_cap_monotone_retired_witness :
    ((⟨1, false⟩ : Connection).total_accepted ≤ STREAM_CAP) ∧
    (∃ v', countAt (new_stream (fun _ => true)
        ⟨.ok (), .ok [0], .ok (), .ok ()⟩ [⟨2, false⟩]).1 0 = some v' ∧
      2 ≤ v') ∧
    ((⟨3, true⟩ : Connection) ∉ sweep [⟨3, true⟩]) := by
  refine ⟨?_, ?_, ?_⟩
  · exact quic_pool_cap_monotone_retired.1 _
      (Reachable.step (fun _ => true) ⟨.ok (), .ok [0], .ok (), .ok ()⟩ []
        Reachable.init) _ (by decide)
  · exact quic_pool_cap_monotone_retired.2.1 (fun _ => true)
      ⟨.ok (), .ok [0], .ok (), .ok ()⟩ [⟨2, false⟩] 0 2 (by decide)
  · exact quic_pool_cap_monotone_retired.2.2.1 _ _ rfl

/-- C2: whenever `new_stream` returns successfully, relative to the swept
pre-call pool either exactly one slot's `total_accepted` increased by 1
with every other slot's count unchanged (and no slot added), or one new
slot `{ total_accepted := 1, completed := false }` was appended with every
pre-existing slot's count unchanged. -/
theorem new_stream_success_change (ok : Nat → Bool) (env : DialEnv) (p : Pool)
    (h : (new_stream ok env p).2 = .ok ()) :
    ((new_stream ok env p).1.length = (sweep p).length ∧
      ∃ k v, countAt (sweep p) k = some v ∧
        countAt (new_stream ok env p).1 k = some (v + 1) ∧
        ∀ j, j ≠ k →
          countAt (new_stream ok env p).1 j = countAt (sweep p) j) ∨
    ((new_stream ok env p).1.length = (sweep p).length + 1 ∧
      (new_stream ok env p).1[(sweep p).length]? = some ⟨1, false⟩ ∧
      ∀ j, j < (sweep p).length →
        countAt (new_stream ok env p).1 j = countAt (sweep p) j) := by
  cases hfound : (reusePass ok 0 (sweep p)).2 with
  | true =>
    left
    have hfst : (new_stream ok env p).1 = (reusePass ok 0 (sweep p)).1 := by
      unfold new_stream; simp [hfound]
    obtain ⟨k, c, hget, _, hget', hoth⟩ :=
      reusePass_counts_of_found ok 0 (sweep p) hfound
    refine ⟨by rw [hfst, reusePass_length], k, c.total_accepted, ?_, ?_, ?_⟩
    · rw [countAt, hget]; rfl
    · rw [hfst, countAt, hget']; rfl
    · intro j hj; rw [hfst]; exact hoth j hj
  | false =>
    right
    have hfst : (new_stream ok env p).1
        = (reusePass ok 0 (sweep p)).1 ++ [⟨1, false⟩] := by
      unfold new_stream
      cases hd : dial env with
      | error e =>
        exfalso
        unfold new_stream at h
        simp [hfound, hd] at h
      | ok u => simp [hfound, hd]
    refine ⟨?_, ?_, ?_⟩
    · rw [hfst]; simp [reusePass_length]
    · rw [hfst, ← reusePass_length ok 0 (sweep p)]
      exact List.getElem?_concat_length _ _
    · intro j hj
      rw [hfst, countAt_append_left (by rw [reusePass_length]; exact hj)]
      exact reusePass_counts_of_not_found ok 0 (sweep p) hfound j

/-- C2 (witness): the change theorem applied at the empty pool with a
successful dial: a fresh slot of count 1 is appended. -/
theorem new_stream_success_change_witness :
    ((new_stream (fun _ => true) ⟨.ok (), .ok [0], .ok (), .ok ()⟩ []).1.length
        = (sweep []).length ∧
      ∃ k v, countAt (sweep []) k = some v ∧
        countAt (new_stream (fun _ => true)
          ⟨.ok (), .ok [0], .ok (), .ok ()⟩ []).1 k = some (v + 1) ∧
        ∀ j, j ≠ k →
          countAt (new_stream (fun _ => true)
            ⟨.ok (), .ok [0], .ok (), .ok ()⟩ []).1 j = countAt (sweep []) j) ∨
    ((new_stream (fun _ => true) ⟨.ok (), .ok [0], .ok (), .ok ()⟩ []).1.length
        = (sweep []).length + 1 ∧
      (new_stream (fun _ => true)
        ⟨.ok (), .ok [0], .ok (), .ok ()⟩ []).1[(sweep []).length]?
        = some ⟨1, false⟩ ∧
      ∀ j, j < (sweep []).length →
        countAt (new_stream (fun _ => true)
          ⟨.ok (), .ok [0], .ok (), .ok ()⟩ []).1 j = countAt (sweep []) j) :=
  new_stream_success_change (fun _ => true) ⟨.ok (), .ok [0], .ok (), .ok ()⟩
    [] rfl

/-- C10: when no pooled slot yields a stream and the dial path fails at any
step, `new_stream` returns that error and the pool is exactly the reuse
pass's output — no slot appended, nothing further modified; and the dial
steps fail with the claimed kinds: DNS error → `Other`, empty DNS result →
`InvalidInput("could not resolve to any address")`, handshake failure →
`Other`, first `open_bi` failure → `Other`. -/
theorem new_stream_dial_failure (ok : Nat → Bool) (env : DialEnv) (p : Pool)
    (e : IoErr)
    (hnf : (reusePass ok 0 (sweep p)).2 = false)
    (he : dial env = .error e) :
    (new_stream ok env p).1 = (reusePass ok 0 (sweep p)).1 ∧
    (new_stream ok env p).2 = .error e ∧
    (∀ (env' : DialEnv) (m : String), env'.endpointRes = .ok () →
      env'.dnsRes = .error m →
      dial env' = .error ⟨.other, "lookup failed: " ++ m⟩) ∧
    (∀ env' : DialEnv, env'.endpointRes = .ok () → env'.dnsRes = .ok [] →
      dial env' = .error ⟨.invalidInput, "could not resolve to any address"⟩) ∧
    (∀ (env' : DialEnv) (m : String) (ips : List Nat),
      env'.endpointRes = .ok () → env'.dnsRes = .ok ips → ips ≠ [] →
      env'.connectRes = .error m → dial env' = .error ⟨.other, m⟩) ∧
    (∀ (env' : DialEnv) (m : String) (ips : List Nat),
      env'.endpointRes = .ok () → env'.dnsRes = .ok ips → ips ≠ [] →
      env'.connectRes = .ok () → env'.openBiRes = .error m →
      dial env' = .error ⟨.other, m⟩) := by
  refine ⟨?_, ?_, ?_, ?_, ?_, ?_⟩
  · unfold new_stream; simp [hnf, he]
  · unfold new_stream; simp [hnf, he]
  · intro env' m h1 h2; simp [dial, h1, h2]
  · intro env' h1 h2; simp [dial, h1, h2]
  · intro env' m ips h1 h2 h3 h4
    have hne : ips.isEmpty = false := by
      cases ips with
      | nil => exact absurd rfl h3
      | cons a l => rfl
    simp [dial, h1, h2, h4, hne]
  · intro env' m ips h1 h2 h3 h4 h5
    have hne : ips.isEmpty = false := by
      cases ips with
      | nil => exact absurd rfl h3
      | cons a l => rfl
    simp [dial, h1, h2, h4, h5, hne]

/-- C10 (witness): the dial-failure theorem applied at the empty pool with
an empty DNS result (fails `InvalidInput`), plus a DNS lookup error mapped
to `Other`. -/
theorem new_stream_dial_failure_witness :
    (new_stream (fun _ => false) ⟨.ok (), .ok [], .ok (), .ok ()⟩ []).2
      = .error ⟨.invalidInput, "could not resolve to any address"⟩ ∧
    dial ⟨.ok (), .error "nx", .ok (), .ok ()⟩
      = .error ⟨.other, "lookup failed: nx"⟩ :=
  ⟨(new_stream_dial_failure (fun _ => false) ⟨.ok (), .ok [], .ok (), .ok ()⟩
      [] _ rfl rfl).2.1,
   (new_stream_dial_failure (fun _ => false) ⟨.ok (), .ok [], .ok (), .ok ()⟩
      [] _ rfl rfl).2.2.1 ⟨.ok (), .error "nx", .ok (), .ok ()⟩ "nx" rfl rfl⟩

/-! ## Helper lemmas on `copy_tcp` -/

lemma copy_tcp_trace_eof (it : IterOutcome) (rest : List IterOutcome)
    (n0 : Nat) (hr : it.readRes = .ok n0) (hz : min n0 BUF_LEN = 0) :
    (copy_tcp (it :: rest)).1 = [CopyEv.readBytes 0] := by
  simp only [copy_tcp, hr, if_pos hz]

lemma copy_tcp_trace_readFail (it : IterOutcome) (rest : List IterOutcome)
    (e : IoErr) (hr : it.readRes = .error e) :
    (copy_tcp (it :: rest)).1 = [CopyEv.readFail] := by
  simp only [copy_tcp, hr]

lemma copy_tcp_trace_writeFail (it : IterOutcome) (rest : List IterOutcome)
    (n0 : Nat) (e : IoErr) (hr : it.readRes = .ok n0)
    (hz : ¬ (min n0 BUF_LEN = 0)) (hw : it.writeRes = .error e) :
    (copy_tcp (it :: rest)).1
      = [CopyEv.readBytes (min n0 BUF_LEN), CopyEv.writeFail] := by
  simp only [copy_tcp, hr, hw, if_neg hz]

lemma copy_tcp_trace_flushFail (it : IterOutcome) (rest : List IterOutcome)
    (n0 w : Nat) (e : IoErr) (hr : it.readRes = .ok n0)
    (hz : ¬ (min n0 BUF_LEN = 0)) (hw : it.writeRes = .ok w)
    (hf : it.flushRes = .error e) :
    (copy_tcp (it :: rest)).1
      = [CopyEv.readBytes (min n0 BUF_LEN),
         CopyEv.wroteBytes (min n0 BUF_LEN), CopyEv.flushFail] := by
  simp only [copy_tcp, hr, hw, hf, if_neg hz]

lemma copy_tcp_trace_round (it : IterOutcome) (rest : List IterOutcome)
    (n0 w : Nat) (u : Unit) (hr : it.readRes = .ok n0)
    (hz : ¬ (min n0 BUF_LEN = 0)) (hw : it.writeRes = .ok w)
    (hf : it.flushRes = .ok u) :
    (copy_tcp (it :: rest)).1
      = CopyEv.readBytes (min n0 BUF_LEN)
        :: CopyEv.wroteBytes (min n0 BUF_LEN)
        :: CopyEv.flushed :: (copy_tcp rest).1 := by
  simp only [copy_tcp, hr, hw, hf, if_neg hz]

lemma copy_tcp_write_bounds :
    ∀ (script : List IterOutcome) (n : Nat),
      CopyEv.wroteBytes n ∈ (copy_tcp script).1 → 0 < n ∧ n ≤ BUF_LEN := by
  intro script
  induction script with
  | nil => intro n h; simp [copy_tcp] at h
  | cons it rest ih =>
    intro n h
    cases hr : it.readRes with
    | error e => rw [copy_tcp_trace_readFail it rest e hr] at h; simp at h
    | ok n0 =>
      by_cases hz : min n0 BUF_LEN = 0
      · rw [copy_tcp_trace_eof it rest n0 hr hz] at h; simp at h
      · cases hw : it.writeRes with
        | error e =>
          rw [copy_tcp_trace_writeFail it rest n0 e hr hz hw] at h
          simp at h
        | ok w =>
          cases hf : it.flushRes with
          | error e =>
            rw [copy_tcp_trace_flushFail it rest n0 w e hr hz hw hf] at h
            simp at h
            subst h
            exact ⟨Nat.pos_of_ne_zero hz, Nat.min_le_right _ _⟩
          | ok u =>
            rw [copy_tcp_trace_round it rest n0 w u hr hz hw hf] at h
            rcases List.mem_cons.mp h with h | h
            · exact absurd h (by simp)
            · rcases List.mem_cons.mp h with h | h
              · rw [CopyEv.wroteBytes.injEq] at h
                subst h
                exact ⟨Nat.pos_of_ne_zero hz, Nat.min_le_right _ _⟩
              · rcases List.mem_cons.mp h with h | h
                · exact absurd h (by simp)
                · exact ih n h

lemma copy_tcp_read_bounds :
    ∀ (script : List IterOutcome) (n : Nat),
      CopyEv.readBytes n ∈ (copy_tcp script).1 → n ≤ BUF_LEN := by
  intro script
  induction script with
  | nil =>
    intro n h
    simp [copy_tcp] at h
    subst h
    exact Nat.zero_le _
  | cons it rest ih =>
    intro n h
    cases hr : it.readRes with
    | error e => rw [copy_tcp_trace_readFail it rest e hr] at h; simp at h
    | ok n0 =>
      by_cases hz : min n0 BUF_LEN = 0
      · rw [copy_tcp_trace_eof it rest n0 hr hz] at h
        simp at h
        subst h
        exact Nat.zero_le _
      · cases hw : it.writeRes with
        | error e =>
          rw [copy_tcp_trace_writeFail it rest n0 e hr hz hw] at h
          simp at h
          subst h
          exact Nat.min_le_right _ _
        | ok w =>
          cases hf : it.flushRes with
          | error e =>
            rw [copy_tcp_trace_flushFail it rest n0 w e hr hz hw hf] at h
            simp at h
            subst h
            exact Nat.min_le_right _ _
          | ok u =>
            rw [copy_tcp_trace_round it rest n0 w u hr hz hw hf] at h
            rcases List.mem_cons.mp h with h | h
            · rw [CopyEv.readBytes.injEq] at h
              subst h
              exact Nat.min_le_right _ _
            · rcases List.mem_cons.mp h with h | h
              · exact absurd h (by simp)
              · rcases List.mem_cons.mp h with h | h
                · exact absurd h (by simp)
                · exact ih n h

lemma copy_tcp_flush_after_write :
    ∀ (script : List IterOutcome) (i n : Nat),
      (copy_tcp script).1[i]? = some (CopyEv.wroteBytes n) →
      (copy_tcp script).1[i + 1]? = some CopyEv.flushed ∨
      (copy_tcp script).1[i + 1]? = some CopyEv.flushFail := by
  intro script
  induction script with
  | nil =>
    intro i n h
    cases i with
    | zero => simp [copy_tcp] at h
    | succ i' => simp [copy_tcp] at h
  | cons it rest ih =>
    intro i n h
    cases hr : it.readRes with
    | error e =>
      rw [copy_tcp_trace_readFail it rest e hr] at h
      cases i with
      | zero => simp at h
      | succ i' => simp at h
    | ok n0 =>
      by_cases hz : min n0 BUF_LEN = 0
      · rw [copy_tcp_trace_eof it rest n0 hr hz] at h
        cases i with
        | zero => simp at h
        | succ i' => simp at h
      · cases hw : it.writeRes with
        | error e =>
          rw [copy_tcp_trace_writeFail it rest n0 e hr hz hw] at h
          cases i with
          | zero => simp at h
          | succ i' =>
            cases i' with
            | zero => simp at h
            | succ i'' => simp at h
        | ok w =>
          cases hf : it.flushRes with
          | error e =>
            rw [copy_tcp_trace_flushFail it rest n0 w e hr hz hw hf] at h ⊢
            cases i with
            | zero => simp at h
            | succ i' =>
              cases i' with
              | zero => right; simp
              | succ i'' =>
                cases i'' with
                | zero => simp at h
                | succ i''' => simp at h
          | ok u =>
            rw [copy_tcp_trace_round it rest n0 w u hr hz hw hf] at h ⊢
            cases i with
            | zero => simp at h
            | succ i' =>
              cases i' with
              | zero => left; simp
              | succ i'' =>
                cases i'' with
                | zero => simp at h
                | succ i''' =>
                  simp only [List.getElem?_cons_succ] at h ⊢
                  exact ih i''' n h

/-- C3: `relay_tcp` shuts each of the rejoined streams down exactly once
before returning, independently of both shutdown outcomes (failures
swallowed); its trace beyond the final shutdown/log suffix is at most the
log of the first-finished direction's copy error — the error is logged,
never re-raised (the return carries no error channel). Each `copy_tcp`
direction uses the fixed 16 KiB (`0x4000`-byte) buffer: every read and
every write moves at most `BUF_LEN` bytes, and every write event is
immediately followed by a flush attempt, before any further read. -/
theorem relay_tcp_shutdown_buffer_flush :
    (∀ env : RelayEnv,
      (relay_tcp env).count RelayEv.shutdownA = 1 ∧
      (relay_tcp env).count RelayEv.shutdownB = 1 ∧
      (∃ pre, relay_tcp env = pre ++
          [RelayEv.shutdownA, RelayEv.shutdownB, RelayEv.sessionEndLogged] ∧
        ∀ e ∈ pre, ∃ m, e = RelayEv.copyErrLogged m) ∧
      (∀ x y, relay_tcp env
        = relay_tcp { env with shutdownARes := x, shutdownBRes := y })) ∧
    BUF_LEN = 16384 ∧
    (∀ (script : List IterOutcome) (n : Nat),
      CopyEv.wroteBytes n ∈ (copy_tcp script).1 → 0 < n ∧ n ≤ BUF_LEN) ∧
    (∀ (script : List IterOutcome) (n : Nat),
      CopyEv.readBytes n ∈ (copy_tcp script).1 → n ≤ BUF_LEN) ∧
    (∀ (script : List IterOutcome) (i n : Nat),
      (copy_tcp script).1[i]? = some (CopyEv.wroteBytes n) →
      (copy_tcp script).1[i + 1]? = some CopyEv.flushed ∨
      (copy_tcp script).1[i + 1]? = some CopyEv.flushFail) := by
  refine ⟨?_, rfl, copy_tcp_write_bounds, copy_tcp_read_bounds,
    copy_tcp_flush_after_write⟩
  intro env
  refine ⟨?_, ?_, ?_, fun x y => rfl⟩
  · cases hw : (if env.firstFinishedIsAB then (copy_tcp env.scriptAB).2
        else (copy_tcp env.scriptBA).2) with
    | error e => simp [relay_tcp, hw, List.count_cons, List.count_append]
    | ok u => simp [relay_tcp, hw, List.count_cons, List.count_append]
  · cases hw : (if env.firstFinishedIsAB then (copy_tcp env.scriptAB).2
        else (copy_tcp env.scriptBA).2) with
    | error e => simp [relay_tcp, hw, List.count_cons, List.count_append]
    | ok u => simp [relay_tcp, hw, List.count_cons, List.count_append]
  · cases hw : (if env.firstFinishedIsAB then (copy_tcp env.scriptAB).2
        else (copy_tcp env.scriptBA).2) with
    | error e =>
      refine ⟨[RelayEv.copyErrLogged e.msg], ?_, ?_⟩
      · simp [relay_tcp, hw]
      · intro ev hev
        rw [List.mem_singleton.mp hev]
        exact ⟨e.msg, rfl⟩
    | ok u =>
      exact ⟨[], by simp [relay_tcp, hw], by simp⟩

/-- C3 (witness): the relay theorem applied at concrete inputs — in the
trace of a one-round copy script the write at position 1 is immediately
followed by a flush, and a 5-byte write is within the 16 KiB buffer
bound. -/
theorem relay_tcp_shutdown_buffer_flush_witness :
    ((copy_tcp [⟨.ok 5, .ok 5, .ok ()⟩]).1[2]? = some CopyEv.flushed ∨
      (copy_tcp [⟨.ok 5, .ok 5, .ok ()⟩]).1[2]? = some CopyEv.flushFail) ∧
    (0 < 5 ∧ 5 ≤ BUF_LEN) :=
  ⟨relay_tcp_shutdown_buffer_flush.2.2.2.2 [⟨.ok 5, .ok 5, .ok ()⟩] 1 5
      (by decide),
   relay_tcp_shutdown_buffer_flush.2.2.1 [⟨.ok 5, .ok 5, .ok ()⟩] 5
      (by decide)⟩

/-- C7 (counterexample): the claim says the drop handler fails with an error
of kind `Protocol`; at the concrete session `⟨"example.com"⟩` with no stream
it in fact fails with kind `Other` (message `"dropped"`), and `Other` is not
`Protocol`. -/
theorem dropHandle_kind_is_other_not_protocol :
    dropHandle ⟨"example.com"⟩ none = .error ⟨.other, "dropped"⟩ ∧
    ErrorKind.other ≠ ErrorKind.protocol := by
  exact ⟨rfl, by decide⟩

/-- C7 (amended): the drop handler's `handle` always fails, for every session
and every input stream, with the error `Other("dropped")`, and its
`connect_addr` always returns `None`. -/
theorem dropHandle_always_other_dropped (sess : Session) (stream : Option Nat) :
    dropHandle sess stream = .error ⟨.other, "dropped"⟩ ∧
    dropConnectAddr = none := by
  exact ⟨rfl, rfl⟩

/-- C8: the inbound `Incoming` producer's `poll_next` returns `Ready(None)`
exactly in states where, after this wake's updates, the underlying incoming
queue has closed and both the pending-handshake list (`connectings`) and
the active-connection list (`new_conns`) are empty and no stream was found;
when step 3 found a stream it returns `Ready(Some(item))`; and in every
other no-stream state it returns `Pending`. -/
theorem incoming_poll_ready_none_iff (inner : InnerPoll)
    (cpoll : Nat → ConnectingPoll) (spoll : Nat → BiStreamPoll)
    (s : IncomingState) :
    ((poll_next inner cpoll spoll s).2 = .readyNone ↔
      (foundStream inner cpoll spoll s = none ∧
        (poll_next inner cpoll spoll s).1.incoming_closed = true ∧
        (poll_next inner cpoll spoll s).1.connectings = [] ∧
        (poll_next inner cpoll spoll s).1.new_conns = [])) ∧
    (∀ it, foundStream inner cpoll spoll s = some it →
      (poll_next inner cpoll spoll s).2 = .readySome it) ∧
    (foundStream inner cpoll spoll s = none →
      ¬ ((poll_next inner cpoll spoll s).1.incoming_closed = true ∧
         (poll_next inner cpoll spoll s).1.connectings = [] ∧
         (poll_next inner cpoll spoll s).1.new_conns = []) →
      (poll_next inner cpoll spoll s).2 = .pending) := by
  cases hf : foundStream inner cpoll spoll s with
  | some it =>
    have hr : poll_next inner cpoll spoll s
        = (postState inner cpoll spoll s, .readySome it) := by
      simp [poll_next, hf]
    rw [hr]
    refine ⟨by simp, ?_, by simp⟩
    intro it' hit'
    simp only [Option.some.injEq] at hit'
    subst hit'
    rfl
  | none =>
    by_cases hcond : ((acceptPhase inner s).incoming_closed
        && (postConnectings inner cpoll s).isEmpty
        && (postNewConns inner cpoll spoll s).isEmpty) = true
    · have hr : poll_next inner cpoll spoll s
          = (postState inner cpoll spoll s, .readyNone) := by
        simp only [poll_next, hf, if_pos hcond]
      simp only [Bool.and_eq_true, List.isEmpty_eq_true] at hcond
      rw [hr]
      refine ⟨?_, ?_, ?_⟩
      · simp [postState, hcond.1.1, hcond.1.2, hcond.2]
      · intro it' hit'
        exact absurd hit' (by simp)
      · intro _ habs
        exact absurd ⟨hcond.1.1, hcond.1.2, hcond.2⟩ habs
    · have hr : poll_next inner cpoll spoll s
          = (postState inner cpoll spoll s, .pending) := by
        simp only [poll_next, hf, if_neg hcond]
      simp only [Bool.and_eq_true, List.isEmpty_eq_true, not_and] at hcond
      rw [hr]
      refine ⟨?_, ?_, fun _ _ => rfl⟩
      · constructor
        · intro habs; exact absurd habs (by simp)
        · rintro ⟨-, hcl, hcn, hnc⟩
          exact absurd hnc (hcond ⟨hcl, hcn⟩)
      · intro it' hit'
        exact absurd hit' (by simp)

/-- C8 (witness): the poll theorem applied at concrete states — a closed
queue with both lists empty yields `Ready(None)`, and a live connection
whose stream queue is ready yields `Ready(Some(..))`. -/
theorem incoming_poll_ready_none_iff_witness :
    (poll_next .pending (fun _ => .pending) (fun _ => .pending)
      ⟨[], [], true⟩).2 = .readyNone ∧
    (poll_next .pending (fun _ => .pending) (fun _ => .streamOk 7)
      ⟨[], [5], false⟩).2 = .readySome ⟨5, 7⟩ :=
  ⟨(incoming_poll_ready_none_iff .pending (fun _ => .pending)
      (fun _ => .pending) ⟨[], [], true⟩).1.mpr ⟨rfl, rfl, rfl, rfl⟩,
   (incoming_poll_ready_none_iff .pending (fun _ => .pending)
      (fun _ => .streamOk 7) ⟨[], [5], false⟩).2.1 ⟨5, 7⟩ rfl⟩

/-- C6 (counterexample): the claim says calling the TLS client outbound
handle with no upstream stream fails with kind `InvalidInput`; at a concrete
session it in fact fails with `Other("invalid tls input")`, and `Other` is
not `InvalidInput`. -/
theorem tlsOutHandle_missing_stream_not_invalidInput :
    tlsOutHandle "example.com" ⟨"host"⟩ none (fun _ => true) (.ok 0)
      = .error ⟨.other, "invalid tls input"⟩ ∧
    ErrorKind.other ≠ ErrorKind.invalidInput := by
  exact ⟨rfl, by decide⟩

/-- C6 (amended): for every session and input, the TLS client outbound
handle fails with `Other("invalid tls input")` when called with no upstream
stream; fails with `InvalidInput("invalid dnsname")` when the chosen SNI
name (`server_name`, or the session destination host when `server_name` is
empty) is not a valid DNS name; and maps every handshake failure to the
constant opaque error `Other("tls error")`, independent of the underlying
error detail. -/
theorem tlsOutHandle_error_kinds (server_name : String) (sess : Session)
    (dnsNameValid : String → Bool) (handshake : Except String Nat) :
    (tlsOutHandle server_name sess none dnsNameValid handshake
      = .error ⟨.other, "invalid tls input"⟩) ∧
    (∀ s, dnsNameValid (sniName server_name sess) = false →
      tlsOutHandle server_name sess (some s) dnsNameValid handshake
        = .error ⟨.invalidInput, "invalid dnsname"⟩) ∧
    (∀ s e, dnsNameValid (sniName server_name sess) = true →
      handshake = .error e →
      tlsOutHandle server_name sess (some s) dnsNameValid handshake
        = .error ⟨.other, "tls error"⟩) := by
  refine ⟨rfl, ?_, ?_⟩
  · intro s hvalid
    simp [tlsOutHandle, hvalid]
  · intro s e hvalid herr
    simp [tlsOutHandle, hvalid, herr]

/-- C6 (witness): the amended theorem applied at concrete inputs — an
invalid SNI with a stream present yields `InvalidInput("invalid dnsname")`,
and a failing handshake yields `Other("tls error")`. -/
theorem tlsOutHandle_error_kinds_witness :
    tlsOutHandle "a" ⟨"b"⟩ (some 0) (fun _ => false) (.ok 0)
      = .error ⟨.invalidInput, "invalid dnsname"⟩ ∧
    tlsOutHandle "a" ⟨"b"⟩ (some 0) (fun _ => true) (.error "boom")
      = .error ⟨.other, "tls error"⟩ :=
  ⟨(tlsOutHandle_error_kinds "a" ⟨"b"⟩ (fun _ => false) (.ok 0)).2.1 0 rfl,
   (tlsOutHandle_error_kinds "a" ⟨"b"⟩ (fun _ => true) (.error "boom")).2.2 0 "boom" rfl rfl⟩

/-- C4 (code_bug): on the failing input — a non-`der` key file on which both
the PKCS#8 and the RSA parser yield zero keys — the QUIC inbound key loader
substitutes the empty private key `PrivateKey(Vec::new())` instead of
failing (the source marks the line `// FIXME return errors`), and the TLS
inbound handler construction panics at `keys.remove(0)` instead of failing
with `InvalidInput("malformed key")`. The selection order the claim states
does hold: the first PKCS#8 key wins when present, else the first RSA key. -/
theorem key_loader_empty_fallback_and_selection :
    quicInKeyNonDer (.ok []) (.ok []) = .ok [] ∧
    tlsInHandlerNew (.ok ()) (.ok [[1]]) (.ok ()) (.ok []) (.ok []) true
      = .panicked ∧
    (∀ k ks rsaRes, quicInKeyNonDer (.ok (k :: ks)) rsaRes = .ok k) ∧
    (∀ r rs, quicInKeyNonDer (.ok []) (.ok (r :: rs)) = .ok r) ∧
    (∀ k ks r rs, load_keys (.ok ()) (.ok (k :: ks)) (.ok (r :: rs))
      = .ok (k :: (ks ++ r :: rs))) ∧
    (∀ c k ks r rs,
      tlsInHandlerNew (.ok ()) (.ok [c]) (.ok ()) (.ok (k :: ks)) (.ok (r :: rs)) true
        = .ok ⟨[c], k⟩) := by
  refine ⟨rfl, rfl, fun k ks rsaRes => rfl, fun r rs => rfl,
    fun k ks r rs => rfl, fun c k ks r rs => rfl⟩

/-- C5 (counterexample): the claim says the certificate loader, on any path
with extension `der`, returns the file's entire contents as a single-entry
chain. The TLS inbound `load_certs` (one of the claim's cited loaders) never
inspects the extension: on a `der` file whose raw bytes `[1,2,3]` contain no
PEM `CERTIFICATE` block it returns the empty chain, while the specified
loader returns the single-entry chain `[[1,2,3]]`. -/
theorem load_certs_ignores_der_extension :
    load_certs (.ok ()) (.ok []) = .ok ([] : List Blob) ∧
    specCertLoader true [1, 2, 3] [] = [[1, 2, 3]] ∧
    (RustResult.ok ([] : List Blob)) ≠ .ok [[1, 2, 3]] := by
  exact ⟨rfl, rfl, by decide⟩

/-- C5 (amended): the QUIC inbound certificate loader behaves as claimed —
`der` extension wraps the whole file as a single-entry chain, any other
path yields exactly one entry per PEM `CERTIFICATE` block, in file order —
while the TLS inbound `load_certs` ignores the extension and always parses
as PEM, yielding one entry per block in file order. -/
theorem cert_loader_chains :
    (∀ raw certsRes, quicInCertChain true raw certsRes = .ok [raw]) ∧
    (∀ raw blocks, quicInCertChain false raw (.ok blocks) = .ok blocks) ∧
    (∀ blocks : List Blob, load_certs (.ok ()) (.ok blocks) = .ok blocks) ∧
    (∀ extIsDer raw blocks,
      extIsDer = false → specCertLoader extIsDer raw blocks = blocks) := by
  refine ⟨fun raw certsRes => rfl, fun raw blocks => rfl, fun blocks => rfl,
    ?_⟩
  intro extIsDer raw blocks h
  simp [specCertLoader, h]

/-- C5 (witness): the amended theorem applied at concrete inputs. -/
theorem cert_loader_chains_witness :
    quicInCertChain true [7] (.ok [[1], [2]]) = .ok [[7]] ∧
    quicInCertChain false [7] (.ok [[1], [2]]) = .ok [[1], [2]] ∧
    specCertLoader false [7] [[1], [2]] = [[1], [2]] :=
  ⟨cert_loader_chains.1 [7] (.ok [[1], [2]]),
   cert_loader_chains.2.1 [7] [[1], [2]],
   cert_loader_chains.2.2.2 false [7] [[1], [2]] rfl⟩

/-- C9 (counterexample): the claim says certificate/key loading failures are
surfaced at handler construction time and never first raised at request time
inside `handle`. The QUIC inbound handler (one of the claim's cited
constructors) stores its paths without touching the filesystem — its
construction cannot fail — and a nonexistent certificate path surfaces as a
`NotFound` IO error only when `handle` is called. -/
theorem quicInHandler_defers_file_loading :
    quicInHandlerNew "missing.crt" "key.pem" = ⟨"missing.crt", "key.pem"⟩ ∧
    quicInHandle ⟨"missing.crt", "key.pem"⟩
      (.error ⟨.notFound, "No such file or directory"⟩) (.ok [])
      false false (.ok []) (.ok []) (.ok []) true (.ok ())
      = .err ⟨.notFound, "No such file or directory"⟩ := by
  exact ⟨rfl, rfl⟩

/-- C9 (amended): the TLS inbound handler loads files only at construction —
a failure to open the certificate or key file (e.g. `NotFound` for a missing
path) is returned as that IO error from `Handler::new`, and its `handle`
performs no file loading (its outcome is exactly the handshake oracle's) —
whereas the QUIC inbound `Handler::new` merely stores the two paths and
defers every file read to `handle`, where a missing certificate or key file
first surfaces as its IO error. -/
theorem file_loading_error_surfacing :
    (∀ e certsRes keyOpenRes p r s,
      tlsInHandlerNew (.error e) certsRes keyOpenRes p r s = .err e) ∧
    (∀ cs e p r s,
      tlsInHandlerNew (.ok ()) (.ok cs) (.error e) p r s = .err e) ∧
    (∀ h sess acceptRes, tlsInHandle h sess acceptRes = acceptRes) ∧
    (∀ c k, quicInHandlerNew c k = ⟨c, k⟩) ∧
    (∀ h e rest1 kd cd p r cr sc ep,
      quicInHandle h (.error e) rest1 kd cd p r cr sc ep = .err e) ∧
    (∀ h raw e kd cd p r cr sc ep,
      quicInHandle h (.ok raw) (.error e) kd cd p r cr sc ep = .err e) := by
  refine ⟨fun e certsRes keyOpenRes p r s => rfl,
    fun cs e p r s => rfl, ?_, fun c k => rfl,
    fun h e rest1 kd cd p r cr sc ep => rfl,
    fun h raw e kd cd p r cr sc ep => rfl⟩
  intro h sess acceptRes
  cases acceptRes <;> rfl

end Flower
